import Mathlib

/-!
Verification development for the résumé-analysis backend (`backend/index.js`).

The backend is shallowly embedded: JavaScript strings are modelled as `List Char`
(abbreviated `Str`), the uploads directory as a `Finset Str` of stored paths,
thrown JS exceptions as `Except Str`, and the external collaborators
(Groq oracle, pdf-parse, mammoth) as function-valued fields of an `Env` record,
since the code treats them as opaque capabilities.  JS numbers are modelled as
`Int` (the JSON texts relevant here only carry integer literals); `JSON.parse`
is modelled by an executable fuel-indexed recursive-descent parser over the
integer fragment of JSON; JS `toLowerCase`/`trim` are modelled on ASCII.
-/

namespace AIR

abbrev Str := List Char

/-- Whitespace recognised by the model of JS `String.prototype.trim` and of the
regex class `\s` (ASCII subset plus NBSP). -/
def jsTrimWs (c : Char) : Bool :=
  c = ' ' || c = '\t' || c = '\n' || c = '\r' || c = '\x0b' || c = '\x0c' || c = ' '

/-- Model of JS `s.trim()`: strip leading and trailing whitespace. -/
def jsTrim (s : Str) : Str :=
  ((s.dropWhile jsTrimWs).reverse.dropWhile jsTrimWs).reverse

/-- Model of JS `s.toLowerCase()` on the ASCII range (the extensions compared
against are ASCII). -/
def jsToLower (s : Str) : Str :=
  s.map Char.toLower

/-- Index of the first occurrence of a character, `none` when absent
(JS `indexOf` returns `-1` when absent). -/
def firstIdx : Str → Char → Option Nat
  | [], _ => none
  | c :: rest, t => if c = t then some 0 else (firstIdx rest t).map Nat.succ

/-- Index of the last occurrence of a character, `none` when absent
(JS `lastIndexOf`). -/
def lastIdx (s : Str) (t : Char) : Option Nat :=
  (firstIdx s.reverse t).map (fun i => s.length - 1 - i)

/-- Model of JS `s.substring(a, b)`: swaps the endpoints when `a > b` and
clamps, returning the characters in `[min a b, max a b)`. -/
def jsSubstring (s : Str) (a b : Nat) : Str :=
  (s.take (max a b)).drop (min a b)

/-- Characters of the basename: everything after the last `/`. -/
def afterLastSlash (s : Str) : Str :=
  (s.reverse.takeWhile (fun c => c ≠ '/')).reverse

/-- Model of Node `path.basename`. -/
def basename (s : Str) : Str :=
  afterLastSlash s

/-- Model of Node `path.extname`: the suffix of the basename from its last dot,
empty when there is no dot or when every character before that dot is itself a
dot (`".bashrc"`, `".."` and the like have no extension). -/
def extname (s : Str) : Str :=
  let base := afterLastSlash s
  match lastIdx base '.' with
  | none => []
  | some i => if (base.take i).all (fun c => c = '.') then [] else base.drop i

/-! ### JSON values and a model of `JSON.parse`

The parser is an executable fuel-indexed recursive-descent parser for the
integer fragment of JSON (objects, arrays, strings with the standard escapes,
integer numerals, `true`/`false`/`null`).  `JSON.parse` requires the whole
string (up to whitespace) to be consumed and, for duplicate object keys, keeps
the last binding, both of which the model reproduces. -/

inductive Json where
  | null : Json
  | bool (b : Bool) : Json
  | num (n : Int) : Json
  | str (s : Str) : Json
  | arr (xs : List Json) : Json
  | obj (fields : List (Str × Json)) : Json

/-- JSON structural whitespace (space, tab, line feed, carriage return). -/
def jsonWs (c : Char) : Bool :=
  c = ' ' || c = '\t' || c = '\n' || c = '\r'

def skipWs (s : Str) : Str :=
  s.dropWhile jsonWs

def hexVal (c : Char) : Option Nat :=
  if '0' ≤ c ∧ c ≤ '9' then some (c.toNat - '0'.toNat)
  else if 'a' ≤ c ∧ c ≤ 'f' then some (c.toNat - 'a'.toNat + 10)
  else if 'A' ≤ c ∧ c ≤ 'F' then some (c.toNat - 'A'.toNat + 10)
  else none

/-- Parse the body of a JSON string literal (the opening quote already
consumed), returning the decoded characters and the rest of the input. -/
def parseStringBody : Str → Option (Str × Str)
  | [] => none
  | '\\' :: e :: rest =>
    match e with
    | '"' => (parseStringBody rest).map (fun r => ('"' :: r.1, r.2))
    | '\\' => (parseStringBody rest).map (fun r => ('\\' :: r.1, r.2))
    | '/' => (parseStringBody rest).map (fun r => ('/' :: r.1, r.2))
    | 'n' => (parseStringBody rest).map (fun r => ('\n' :: r.1, r.2))
    | 't' => (parseStringBody rest).map (fun r => ('\t' :: r.1, r.2))
    | 'r' => (parseStringBody rest).map (fun r => ('\r' :: r.1, r.2))
    | 'b' => (parseStringBody rest).map (fun r => ('\x08' :: r.1, r.2))
    | 'f' => (parseStringBody rest).map (fun r => ('\x0c' :: r.1, r.2))
    | 'u' =>
      match rest with
      | h1 :: h2 :: h3 :: h4 :: rest2 =>
        match hexVal h1, hexVal h2, hexVal h3, hexVal h4 with
        | some a, some b, some c, some d =>
          let n := ((a * 16 + b) * 16 + c) * 16 + d
          if h : n < 0xd800 then
            (parseStringBody rest2).map (fun r => (Char.ofNatAux n (by omega) :: r.1, r.2))
          else none
        | _, _, _, _ => none
      | _ => none
    | _ => none
  | '"' :: rest => some ([], rest)
  | c :: rest =>
    if c.toNat < 0x20 then none
    else (parseStringBody rest).map (fun r => (c :: r.1, r.2))

/-- Parse a run of decimal digits into a natural number (most significant
first); `none` when the run is empty. -/
def digitsVal (ds : Str) : Option Nat :=
  match ds with
  | [] => none
  | _ => some (ds.foldl (fun acc c => acc * 10 + (c.toNat - '0'.toNat)) 0)

/-- Parse a JSON integer numeral at the head of the input.  Fractional and
exponent parts are outside the model: an immediately following `.`, `e` or `E`
makes the parse fail rather than misparse. -/
def parseIntLit (s : Str) : Option (Int × Str) :=
  let core : Str → Option (Nat × Str) := fun u =>
    let ds := u.takeWhile Char.isDigit
    let rest := u.dropWhile Char.isDigit
    match digitsVal ds with
    | none => none
    | some n =>
      if ds.length > 1 ∧ ds.head? = some '0' then none
      else
        match rest with
        | c :: _ => if c = '.' ∨ c = 'e' ∨ c = 'E' then none else some (n, rest)
        | [] => some (n, [])
  match s with
  | '-' :: rest => (core rest).map (fun r => (-(r.1 : Int), r.2))
  | _ => (core s).map (fun r => ((r.1 : Int), r.2))

/-- One step of the object-members loop, parameterised by the value parser
`pv`; `acc` holds the members parsed so far, in order. -/
def parseMembersF (pv : Str → Option (Json × Str)) :
    Nat → Str → List (Str × Json) → Option (List (Str × Json) × Str)
  | 0, _, _ => none
  | fuel + 1, s, acc =>
    match skipWs s with
    | '"' :: rest =>
      match parseStringBody rest with
      | none => none
      | some (key, rest2) =>
        match skipWs rest2 with
        | ':' :: rest3 =>
          match pv (skipWs rest3) with
          | none => none
          | some (v, rest4) =>
            match skipWs rest4 with
            | ',' :: rest5 => parseMembersF pv fuel rest5 (acc ++ [(key, v)])
            | '\x7d' :: rest5 => some (acc ++ [(key, v)], rest5)
            | _ => none
        | _ => none
    | _ => none

/-- One step of the array-elements loop, parameterised by the value parser. -/
def parseItemsF (pv : Str → Option (Json × Str)) :
    Nat → Str → List Json → Option (List Json × Str)
  | 0, _, _ => none
  | fuel + 1, s, acc =>
    match pv (skipWs s) with
    | none => none
    | some (v, rest) =>
      match skipWs rest with
      | ',' :: rest2 => parseItemsF pv fuel rest2 (acc ++ [v])
      | ']' :: rest2 => some (acc ++ [v], rest2)
      | _ => none

/-- Fuel-indexed JSON value parser; the input is assumed whitespace-skipped. -/
def parseVal : Nat → Str → Option (Json × Str)
  | 0, _ => none
  | fuel + 1, s =>
    match s with
    | 'n' :: 'u' :: 'l' :: 'l' :: rest => some (Json.null, rest)
    | 't' :: 'r' :: 'u' :: 'e' :: rest => some (Json.bool true, rest)
    | 'f' :: 'a' :: 'l' :: 's' :: 'e' :: rest => some (Json.bool false, rest)
    | '"' :: rest => (parseStringBody rest).map (fun r => (Json.str r.1, r.2))
    | '\x7b' :: rest =>
      match skipWs rest with
      | '\x7d' :: rest2 => some (Json.obj [], rest2)
      | _ => (parseMembersF (parseVal fuel) fuel rest []).map
          (fun r => (Json.obj r.1, r.2))
    | '[' :: rest =>
      match skipWs rest with
      | ']' :: rest2 => some (Json.arr [], rest2)
      | _ => (parseItemsF (parseVal fuel) fuel rest []).map
          (fun r => (Json.arr r.1, r.2))
    | _ => (parseIntLit s).map (fun r => (Json.num r.1, r.2))

/-- Model of `JSON.parse`: parse one value and require only whitespace to
remain. -/
def jsonParse (s : Str) : Option Json :=
  match parseVal (s.length + 1) (skipWs s) with
  | some (j, rest) => if skipWs rest = [] then some j else none
  | none => none

/-! ### The fallback extraction (the regex path of `scoreResume`)

Models lines 167–175 of `backend/index.js`: when strict JSON parsing fails the
code extracts each key independently with the regexes
`/"score":\s*(\d+)/`, `/"goodPoints":\s*"(.*?)(?<!\\)"/s` and
`/"badPoints":\s*"(.*?)(?<!\\)"/s`.  A regex match is modelled by trying the
pattern at every start position from the left and taking the first full match;
`\s` is modelled by `jsTrimWs`. -/

def scorePat : Str := '"' :: ("score".toList ++ ['"', ':'])

def goodPat : Str := '"' :: ("goodPoints".toList ++ ['"', ':'])

def badPat : Str := '"' :: ("badPoints".toList ++ ['"', ':'])

/-- Try a positional matcher at every suffix, left to right; first success
wins, as for an unanchored regex. -/
def findFirstMatch {α : Type} (f : Str → Option α) : Str → Option α
  | [] => f []
  | s@(_ :: rest) =>
    match f s with
    | some r => some r
    | none => findFirstMatch f rest

/-- Match `/"score":\s*(\d+)/` at the start of `s`; returns the captured
digit run. -/
def scoreMatchAt (s : Str) : Option Str :=
  if scorePat.isPrefixOf s then
    let ds := ((s.drop scorePat.length).dropWhile jsTrimWs).takeWhile Char.isDigit
    if ds = [] then none else some ds
  else none

/-- Scan for the first `"` not immediately preceded by `\` (the lazy capture
`(.*?)(?<!\\)"`); `prev` is the character just before the current position,
`acc` the reversed capture so far. -/
def closeQuote : Char → Str → Str → Option Str
  | _, [], _ => none
  | prev, c :: rest, acc =>
    if c = '"' ∧ prev ≠ '\\' then some acc.reverse
    else closeQuote c rest (c :: acc)

/-- Match `/"<key>":\s*"(.*?)(?<!\\)"/s` at the start of `s` (with `pat` the
literal `"<key>":`); returns the capture. -/
def quotedMatchAt (pat : Str) (s : Str) : Option Str :=
  if pat.isPrefixOf s then
    match (s.drop pat.length).dropWhile jsTrimWs with
    | '"' :: body => closeQuote '"' body []
    | _ => none
  else none

/-- Model of `.replace(/\\"/g, String.quoteChar)` on the captured text. -/
def replaceEscQuote : Str → Str
  | [] => []
  | '\\' :: '"' :: rest => '"' :: replaceEscQuote rest
  | c :: rest => c :: replaceEscQuote rest

/-- Model of JS `parseInt` on a non-empty run of decimal digits. -/
def jsParseInt (ds : Str) : Int :=
  (ds.foldl (fun acc c => acc * 10 + (c.toNat - '0'.toNat)) 0 : Nat)

/-! ### The pre-validation record and the interpreter -/

/-- The JS value held in one field of `parsedResult`: a number, a string, or
anything whose `typeof` is neither (`undefined`, `null`, booleans, objects). -/
inductive JsVal where
  | num (n : Int) : JsVal
  | str (s : Str) : JsVal
  | other : JsVal
deriving DecidableEq

/-- The three fields of `parsedResult` before the `typeof` validation. -/
structure JsRecord where
  score : JsVal
  goodPoints : JsVal
  badPoints : JsVal
deriving DecidableEq

/-- JS property lookup on a parsed JSON object: later duplicate keys
overwrite earlier ones, a missing key reads as `undefined`. -/
def getField (fields : List (Str × Json)) (key : Str) : Option Json :=
  fields.foldl (fun acc kv => if kv.1 = key then some kv.2 else acc) none

def toJsVal : Option Json → JsVal
  | some (Json.num n) => JsVal.num n
  | some (Json.str s) => JsVal.str s
  | _ => JsVal.other

/-- Read the three keys off the value returned by `JSON.parse`.  The slice
handed to `JSON.parse` always begins with an opening brace, so a successful
parse is an object; the catch-all models property access on other values. -/
def recordOfJson : Json → JsRecord
  | Json.obj fields =>
    { score := toJsVal (getField fields ("score".toList))
      goodPoints := toJsVal (getField fields ("goodPoints".toList))
      badPoints := toJsVal (getField fields ("badPoints".toList)) }
  | _ => { score := JsVal.other, goodPoints := JsVal.other, badPoints := JsVal.other }

def goodPlaceholder : Str :=
  "AI response format issue: Good points could not be extracted.".toList

def badPlaceholder : Str :=
  "AI response format issue: Bad points could not be extracted.".toList

/-- Fallback score (line 172): the captured digits through `parseInt`, else 0. -/
def fallbackScore (text : Str) : Int :=
  match findFirstMatch scoreMatchAt text with
  | some ds => jsParseInt ds
  | none => 0

/-- Fallback strengths (line 173): the capture with `\"` unescaped, else the
placeholder. -/
def fallbackGood (text : Str) : Str :=
  match findFirstMatch (quotedMatchAt goodPat) text with
  | some cap => replaceEscQuote cap
  | none => goodPlaceholder

/-- Fallback weaknesses (line 174). -/
def fallbackBad (text : Str) : Str :=
  match findFirstMatch (quotedMatchAt badPat) text with
  | some cap => replaceEscQuote cap
  | none => badPlaceholder

/-- The fallback `parsedResult` (lines 171–175): each key extracted by its
regex independently, with a placeholder when the pattern is absent. -/
def fallbackRecord (text : Str) : JsRecord :=
  { score := JsVal.num (fallbackScore text)
    goodPoints := JsVal.str (fallbackGood text)
    badPoints := JsVal.str (fallbackBad text) }

/-- The substring handed to `JSON.parse` (lines 156–161): from the first `{`
to the last `}`; `none` models the boundaries-not-found throw, which the inner
catch turns into the fallback path. -/
def strictSlice (text : Str) : Option Str :=
  match firstIdx text '\x7b', lastIdx text '\x7d' with
  | some a, some b => some (jsSubstring text a (b + 1))
  | _, _ => none

/-- `parsedResult` after the inner try/catch (lines 153–177): the strict path
when slicing and `JSON.parse` succeed, the fallback record otherwise. -/
def rawRecord (text : Str) : JsRecord :=
  match strictSlice text with
  | some sl =>
    match jsonParse sl with
    | some js => recordOfJson js
    | none => fallbackRecord text
  | none => fallbackRecord text

/-- The validated final contract. -/
structure AnalysisResult where
  score : Int
  goodPoints : Str
  badPoints : Str
deriving DecidableEq

def structureErrMsg : Str :=
  "AI response did not return the expected JSON structure (score, goodPoints, badPoints).".toList

/-- The `typeof` validation (lines 179–184): an `Except.error` models the
throw that escapes to the outer catch of `scoreResume`. -/
def validate (rec : JsRecord) : Except Str AnalysisResult :=
  match rec.score, rec.goodPoints, rec.badPoints with
  | JsVal.num n, JsVal.str g, JsVal.str b => Except.ok ⟨n, g, b⟩
  | _, _, _ => Except.error structureErrMsg

/-- The response interpreter: lines 153–186 applied to the (trimmed) raw
oracle text. -/
def parseStage (text : Str) : Except Str AnalysisResult :=
  validate (rawRecord text)

/-! ### The scoring oracle client (`scoreResume`, lines 114–195) -/

/-- Outcome of one Groq chat-completion call: either the awaited promise
rejects (a throw, carrying the error message), or it resolves and
`choices[0]?.message?.content` is `none` (optional chaining yields
`undefined`) or a string. -/
inductive OracleResult where
  | throws (msg : Str) : OracleResult
  | content (text : Option Str) : OracleResult

/-- The external collaborators of the backend, as opaque capabilities:
the `GROQ_API_KEY` environment variable, the Groq oracle (response as a
function of the prompt), and the two text extractors, where `none` models the
underlying library throwing (corrupt or unreadable document). -/
structure Env where
  apiKey : Option Str
  oracle : Str → OracleResult
  pdfText : Str → Option Str
  docxText : Str → Option Str

/-- The prompt template of lines 116–124. -/
def promptHead : Str :=
  ("You are a helpful assistant that scores resumes against a job description. " ++
   "Your response MUST be ONLY a JSON object with the following keys: " ++
   "\"score\" (a number from 0-100), \"goodPoints\" (a string detailing strengths), " ++
   "and \"badPoints\" (a string detailing weaknesses). " ++
   "Do NOT include any other text or commentary outside the JSON.\n\nJob Description:\n").toList

def promptMid : Str := "\n\nResume:\n".toList

def promptTail : Str := "\n\nJSON Response:".toList

def buildPrompt (resumeText jobDescription : Str) : Str :=
  promptHead ++ jobDescription ++ promptMid ++ resumeText ++ promptTail

/-- `if (!process.env.GROQ_API_KEY)`: an unset or empty variable is falsy. -/
def keyFalsy : Option Str → Bool
  | none => true
  | some s => s = []

/-- The short-circuit result when the key is missing (lines 129–133). -/
def keyMissingResult : AnalysisResult :=
  { score := 0
    goodPoints := "API key not configured.".toList
    badPoints := "Cannot evaluate resume without a Groq API key. Please check server configuration.".toList }

/-- The degraded result built by the outer catch (lines 189–193) from the
caught error message. -/
def degradedResult (msg : Str) : AnalysisResult :=
  { score := 0
    goodPoints := "An error occurred during evaluation.".toList
    badPoints := "Evaluation failed due to an internal error: ".toList ++ msg ++
      ". Please ensure your API key is valid and the Groq model is accessible.".toList }

/-- Message of the TypeError raised when `textResponse` is `undefined`: the
inner try throws on `.indexOf`, and the inner catch then throws on `.match`,
which is the error that reaches the outer catch. -/
def undefinedMatchMsg : Str :=
  "Cannot read properties of undefined (reading \x27match\x27)".toList

/-- `scoreResume` (lines 114–195).  Every throw inside the try block is caught
by the outer catch, so the function is total and always returns an
`AnalysisResult`. -/
def scoreResume (env : Env) (resumeText jobDescription : Str) : AnalysisResult :=
  if keyFalsy env.apiKey then keyMissingResult
  else
    match env.oracle (buildPrompt resumeText jobDescription) with
    | OracleResult.throws m => degradedResult m
    | OracleResult.content none => degradedResult undefinedMatchMsg
    | OracleResult.content (some raw) =>
      match parseStage (jsTrim raw) with
      | Except.ok r => r
      | Except.error m => degradedResult m

/-! ### The batch coordinator (`app.post` on `/analyze`, lines 204–282)

The uploads directory is modelled as the finite set of stored file paths;
`fs.unlinkSync` removes a path and throws `ENOENT` when it is absent,
`fs.existsSync` is membership. -/

structure UploadedFile where
  originalname : Str
  path : Str
deriving DecidableEq

def pdfFailMsg : Str :=
  "Failed to parse PDF file. It might be corrupted or malformed.".toList

def docxFailMsg : Str :=
  "Failed to parse DOCX file. It might be corrupted or malformed.".toList

/-- `extractTextFromPDF` (lines 78–87): any failure of the underlying read or
parse is rethrown with a fixed message. -/
def extractTextFromPDF (env : Env) (filePath : Str) : Except Str Str :=
  match env.pdfText filePath with
  | some t => Except.ok t
  | none => Except.error pdfFailMsg

/-- `extractTextFromDOCX` (lines 95–104). -/
def extractTextFromDOCX (env : Env) (filePath : Str) : Except Str Str :=
  match env.docxText filePath with
  | some t => Except.ok t
  | none => Except.error docxFailMsg

/-- `fs.unlinkSync`: remove the path, throwing `ENOENT` when it is absent. -/
def unlinkSync (fs : Finset Str) (p : Str) : Except Str (Finset Str) :=
  if p ∈ fs then Except.ok (fs.erase p)
  else Except.error ("ENOENT: no such file or directory, unlink \x27".toList ++ p ++ "\x27".toList)

/-- One per-file outcome, as serialised into the response array: either the
success object `filename/savedFilename/score/goodPoints/badPoints` or the
error object `filename/error`. -/
inductive Outcome where
  | success (filename savedFilename : Str) (analysis : AnalysisResult) : Outcome
  | failure (filename : Str) (errorMessage : Str) : Outcome
deriving DecidableEq

def Outcome.fname : Outcome → Str
  | Outcome.success f _ _ => f
  | Outcome.failure f _ => f

def Outcome.isSuccess : Outcome → Bool
  | Outcome.success _ _ _ => true
  | Outcome.failure _ _ => false

def unsupportedMsg : Str :=
  "Unsupported file type. Only PDF and DOCX files are allowed.".toList

def failMsgHead : Str := "Failed to process this resume: ".toList

/-- The per-file try block (lines 232–257): route on the lower-cased
extension, extract, score, and build the outcome; `Except.error` models a
throw escaping the block (extraction failure, or `unlinkSync` on a missing
unsupported file). -/
def fileBody (env : Env) (jd : Str) (fs : Finset Str) (file : UploadedFile) :
    Except Str (Outcome × Finset Str) :=
  let fileExt := jsToLower (extname file.originalname)
  if fileExt = (".pdf".toList) then
    match extractTextFromPDF env file.path with
    | Except.ok resumeText =>
      Except.ok
        (Outcome.success file.originalname (basename file.path)
          (scoreResume env resumeText jd), fs)
    | Except.error m => Except.error m
  else if fileExt = (".docx".toList) then
    match extractTextFromDOCX env file.path with
    | Except.ok resumeText =>
      Except.ok
        (Outcome.success file.originalname (basename file.path)
          (scoreResume env resumeText jd), fs)
    | Except.error m => Except.error m
  else
    match unlinkSync fs file.path with
    | Except.ok fs2 => Except.ok (Outcome.failure file.originalname unsupportedMsg, fs2)
    | Except.error m => Except.error m

/-- One whole per-file pipeline (lines 227–272): the try block plus the
per-file catch, which deletes the stored document when it still exists and
emits a Failure outcome with the error message. -/
def processFile (env : Env) (jd : Str) (fs : Finset Str) (file : UploadedFile) :
    Outcome × Finset Str :=
  match fileBody env jd fs file with
  | Except.ok r => r
  | Except.error m =>
    (Outcome.failure file.originalname (failMsgHead ++ m),
     if file.path ∈ fs then fs.erase file.path else fs)

/-- The fan-out over the uploaded files.  The concurrent `Promise.all` is
modelled sequentially: each pipeline only ever touches its own stored path, so
with distinct paths the effects are independent. -/
def processAll (env : Env) (jd : Str) : Finset Str → List UploadedFile → List Outcome × Finset Str
  | fs, [] => ([], fs)
  | fs, file :: rest =>
    let pr := processFile env jd fs file
    let tl := processAll env jd pr.2 rest
    (pr.1 :: tl.1, tl.2)

inductive Response where
  | badRequest (errorMessage : Str) : Response
  | ok (results : List Outcome) : Response
deriving DecidableEq

/-- `if (!jobDescription)`: a missing or empty job description is falsy. -/
def jdFalsy : Option Str → Bool
  | none => true
  | some s => s = []

def jdRequiredMsg : Str := "Job description is required for analysis.".toList

def noFilesMsg : Str := "No resume files uploaded for analysis.".toList

/-- The cleanup loop of lines 210–216: unlink every uploaded file that still
exists. -/
def deleteUploads (fs : Finset Str) (files : List UploadedFile) : Finset Str :=
  files.foldl (fun acc f => if f.path ∈ acc then acc.erase f.path else acc) fs

/-- The `/analyze` handler (lines 204–282): validate the job description
(deleting the uploads when it is missing), validate the file list, then run
every per-file pipeline and answer with the outcome list. -/
def analyze (env : Env) (fs : Finset Str) (jobDescription : Option Str)
    (files : List UploadedFile) : Response × Finset Str :=
  if jdFalsy jobDescription then
    (Response.badRequest jdRequiredMsg, deleteUploads fs files)
  else if files.isEmpty then
    (Response.badRequest noFilesMsg, fs)
  else
    let pr := processAll env (jobDescription.getD []) fs files
    (Response.ok pr.1, pr.2)

/-- The outcome of one file run in isolation (its own path stored, nothing
else): the canonical per-file result, independent of the rest of the batch. -/
def fileOutcome (env : Env) (jd : Str) (file : UploadedFile) : Outcome :=
  (processFile env jd {file.path} file).1

/-! ### Helper lemmas about the batch coordinator -/

theorem processFile_fname (env : Env) (jd : Str) (fs : Finset Str) (file : UploadedFile) :
    (processFile env jd fs file).1.fname = file.originalname := by
  by_cases h1 : jsToLower (extname file.originalname) = ".pdf".toList
  · cases h2 : extractTextFromPDF env file.path with
    | ok t => simp [processFile, fileBody, h1, h2, Outcome.fname]
    | error m => simp [processFile, fileBody, h1, h2, Outcome.fname]
  · have hn1 : jsToLower (extname file.originalname) ≠ ['.', 'p', 'd', 'f'] := by
      simpa using h1
    by_cases h3 : jsToLower (extname file.originalname) = ".docx".toList
    · cases h2 : extractTextFromDOCX env file.path with
      | ok t => simp [processFile, fileBody, hn1, h3, h2, Outcome.fname]
      | error m => simp [processFile, fileBody, hn1, h3, h2, Outcome.fname]
    · have hn3 : jsToLower (extname file.originalname) ≠ ['.', 'd', 'o', 'c', 'x'] := by
        simpa using h3
      by_cases h4 : file.path ∈ fs
      · simp [processFile, fileBody, hn1, hn3, unlinkSync, h4, Outcome.fname]
      · simp [processFile, fileBody, hn1, hn3, unlinkSync, h4, Outcome.fname]

/-- A per-file pipeline whose stored document exists behaves canonically: its
outcome is `fileOutcome` (independent of the rest of the store) and it deletes
exactly its own path, and only on failure. -/
theorem processFile_eq (env : Env) (jd : Str) (fs : Finset Str) (file : UploadedFile)
    (hmem : file.path ∈ fs) :
    processFile env jd fs file =
      (fileOutcome env jd file,
       if (fileOutcome env jd file).isSuccess = true then fs else fs.erase file.path) := by
  by_cases h1 : jsToLower (extname file.originalname) = ".pdf".toList
  · cases h2 : extractTextFromPDF env file.path with
    | ok t => simp [processFile, fileBody, fileOutcome, h1, h2, Outcome.isSuccess]
    | error m => simp [processFile, fileBody, fileOutcome, h1, h2, Outcome.isSuccess, hmem]
  · have hn1 : jsToLower (extname file.originalname) ≠ ['.', 'p', 'd', 'f'] := by
      simpa using h1
    by_cases h3 : jsToLower (extname file.originalname) = ".docx".toList
    · cases h2 : extractTextFromDOCX env file.path with
      | ok t => simp [processFile, fileBody, fileOutcome, hn1, h3, h2, Outcome.isSuccess]
      | error m => simp [processFile, fileBody, fileOutcome, hn1, h3, h2, Outcome.isSuccess, hmem]
    · have hn3 : jsToLower (extname file.originalname) ≠ ['.', 'd', 'o', 'c', 'x'] := by
        simpa using h3
      simp [processFile, fileBody, fileOutcome, hn1, hn3, unlinkSync, hmem, Outcome.isSuccess]

/-- Fan-out characterisation: with every stored document present and pairwise
distinct paths, the outcome list is the per-file map of `fileOutcome`, and a
path survives the batch iff it was present and is not the path of a failed
file. -/
theorem processAll_spec (env : Env) (jd : Str) (files : List UploadedFile) :
    ∀ (fs : Finset Str), (∀ f ∈ files, f.path ∈ fs) →
      (files.map (fun f => f.path)).Nodup →
      (processAll env jd fs files).1 = files.map (fileOutcome env jd) ∧
      ∀ q, q ∈ (processAll env jd fs files).2 ↔
        (q ∈ fs ∧ ∀ f ∈ files, f.path = q → (fileOutcome env jd f).isSuccess = true) := by
  induction files with
  | nil => intro fs _ _; simp [processAll]
  | cons file rest ih =>
    intro fs hmem hnd
    have hpf : file.path ∈ fs := hmem file (by simp)
    have hnd2 : (∀ x ∈ rest, ¬ x.path = file.path) ∧
        (rest.map (fun f => f.path)).Nodup := by
      simpa using hnd
    have hndr : (rest.map (fun f => f.path)).Nodup := hnd2.2
    have hL1 := processFile_eq env jd fs file hpf
    cases hsucc : (fileOutcome env jd file).isSuccess with
    | true =>
      have hfs1 : processFile env jd fs file = (fileOutcome env jd file, fs) := by
        rw [hL1, hsucc]; simp
      have hmemr : ∀ f ∈ rest, f.path ∈ fs := fun f hf => hmem f (by simp [hf])
      obtain ⟨ih1, ih2⟩ := ih fs hmemr hndr
      constructor
      · simp [processAll, hfs1, ih1]
      · intro q
        have h2 := ih2 q
        simp only [processAll, hfs1]
        rw [h2]
        constructor
        · rintro ⟨hq, hr⟩
          refine ⟨hq, ?_⟩
          intro f hf hp
          rcases List.mem_cons.mp hf with rfl | hf2
          · exact hsucc
          · exact hr f hf2 hp
        · rintro ⟨hq, hr⟩
          exact ⟨hq, fun f hf hp => hr f (List.mem_cons.mpr (Or.inr hf)) hp⟩
    | false =>
      have hfs1 : processFile env jd fs file =
          (fileOutcome env jd file, fs.erase file.path) := by
        rw [hL1, hsucc]; simp
      have hmemr : ∀ f ∈ rest, f.path ∈ fs.erase file.path := by
        intro f hf
        exact Finset.mem_erase.mpr ⟨hnd2.1 f hf, hmem f (by simp [hf])⟩
      obtain ⟨ih1, ih2⟩ := ih (fs.erase file.path) hmemr hndr
      constructor
      · simp [processAll, hfs1, ih1]
      · intro q
        have h2 := ih2 q
        simp only [processAll, hfs1]
        rw [h2, Finset.mem_erase]
        constructor
        · rintro ⟨⟨hne, hq⟩, hr⟩
          refine ⟨hq, ?_⟩
          intro f hf hp
          rcases List.mem_cons.mp hf with rfl | hf2
          · exact absurd hp.symm hne
          · exact hr f hf2 hp
        · rintro ⟨hq, hr⟩
          refine ⟨⟨?_, hq⟩, fun f hf hp => hr f (List.mem_cons.mpr (Or.inr hf)) hp⟩
          intro hqe
          have hcontra := hr file (by simp) hqe.symm
          rw [hcontra] at hsucc
          cases hsucc

/-- Per-file filename tracing, without any assumption on the store. -/
theorem processAll_fnames (env : Env) (jd : Str) (files : List UploadedFile) :
    ∀ fs, List.Forall₂ (fun o f => o.fname = f.originalname)
      (processAll env jd fs files).1 files := by
  induction files with
  | nil => intro fs; simp [processAll]
  | cons file rest ih =>
    intro fs
    simp only [processAll]
    exact List.Forall₂.cons (processFile_fname env jd fs file) (ih _)

/-- A validly formed request reaches the fan-out. -/
theorem analyze_valid (env : Env) (fs : Finset Str) (jd : Str) (files : List UploadedFile)
    (hjd : jd ≠ []) (hfe : files ≠ []) :
    analyze env fs (some jd) files =
      (Response.ok (processAll env jd fs files).1, (processAll env jd fs files).2) := by
  simp [analyze, jdFalsy, hjd, List.isEmpty_iff, hfe]

/-- Membership after the missing-job-description cleanup loop: exactly the
uploaded files' paths are removed. -/
theorem deleteUploads_mem (files : List UploadedFile) :
    ∀ (fs : Finset Str) (q : Str),
      q ∈ deleteUploads fs files ↔ (q ∈ fs ∧ q ∉ files.map (fun f => f.path)) := by
  induction files with
  | nil => intro fs q; simp [deleteUploads]
  | cons file rest ih =>
    intro fs q
    have hstep : deleteUploads fs (file :: rest) =
        deleteUploads (if file.path ∈ fs then fs.erase file.path else fs) rest := by
      simp [deleteUploads]
    rw [hstep, ih]
    have hone : q ∈ (if file.path ∈ fs then fs.erase file.path else fs) ↔
        (q ∈ fs ∧ q ≠ file.path) := by
      by_cases hm : file.path ∈ fs
      · simp [hm, Finset.mem_erase, and_comm]
      · simp only [hm, if_false]
        constructor
        · intro hq
          refine ⟨hq, ?_⟩
          intro he
          exact hm (he ▸ hq)
        · exact fun h => h.1
    rw [hone]
    simp only [List.map_cons, List.mem_cons]
    tauto

/-! ### Concrete fixtures used by witnesses and counterexamples -/

/-- A well-formed three-key oracle response. -/
def sampleJson : Str :=
  "\x7b\"score\":72,\"goodPoints\":\"x\",\"badPoints\":\"y\"\x7d".toList

/-- An environment with a configured key, an oracle answering `sampleJson`,
and a PDF extractor that succeeds only on the stored path `up/a1`. -/
def envGood : Env :=
  { apiKey := some ("k".toList)
    oracle := fun _ => OracleResult.content (some sampleJson)
    pdfText := fun p => if p = "up/a1".toList then some ("alice resume".toList) else none
    docxText := fun _ => none }

def fileA : UploadedFile := ⟨"a.pdf".toList, "up/a1".toList⟩

def fileB : UploadedFile := ⟨"b.txt".toList, "up/b2".toList⟩

def fileC : UploadedFile := ⟨"c.pdf".toList, "up/c3".toList⟩

def store0 : Finset Str := {"up/a1".toList, "up/b2".toList, "up/c3".toList}

/-! ### The claims -/

/-- C1: every batch accepted by the `/analyze` handler (non-empty job
description, at least one uploaded file) answers with exactly one outcome per
input file, and each outcome carries its originating file's filename. -/
theorem analyze_outcome_count_and_filenames (env : Env) (fs : Finset Str)
    (jd : Str) (files : List UploadedFile) (hjd : jd ≠ []) (hfe : files ≠ []) :
    ∃ os fs2, analyze env fs (some jd) files = (Response.ok os, fs2) ∧
      os.length = files.length ∧
      List.Forall₂ (fun o f => Outcome.fname o = f.originalname) os files := by
  refine ⟨(processAll env jd fs files).1, (processAll env jd fs files).2,
    analyze_valid env fs jd files hjd hfe,
    (processAll_fnames env jd files fs).length_eq,
    processAll_fnames env jd files fs⟩

/-- Witness for C1 on a concrete three-file batch. -/
theorem analyze_outcome_count_and_filenames_witness :
    ∃ os fs2,
      analyze envGood store0 (some ("jd".toList)) [fileA, fileB, fileC] =
        (Response.ok os, fs2) ∧
      os.length = [fileA, fileB, fileC].length ∧
      List.Forall₂ (fun o f => Outcome.fname o = f.originalname) os [fileA, fileB, fileC] :=
  analyze_outcome_count_and_filenames envGood store0 ("jd".toList)
    [fileA, fileB, fileC] (by decide) (by decide)

/-- C2: an exception inside one file's pipeline (its try block evaluating to a
throw) is contained at the per-file boundary: that file's outcome is a Failure
carrying the error's message, its stored document is removed, the response is
still a normal outcome list in which every file's outcome is the canonical
per-file function of that file alone, and the batch is not aborted. -/
theorem analyze_per_file_failure_isolated (env : Env) (fs : Finset Str) (jd : Str)
    (files : List UploadedFile) (i : Nat) (file : UploadedFile) (m : Str)
    (hjd : jd ≠ [])
    (hmem : ∀ f ∈ files, f.path ∈ fs)
    (hnd : (files.map (fun f => f.path)).Nodup)
    (hfi : files[i]? = some file)
    (herr : fileBody env jd {file.path} file = Except.error m) :
    ∃ os fs2, analyze env fs (some jd) files = (Response.ok os, fs2) ∧
      os = files.map (fileOutcome env jd) ∧
      os[i]? = some (Outcome.failure file.originalname (failMsgHead ++ m)) ∧
      file.path ∉ fs2 := by
  have hfmem : file ∈ files := List.getElem?_mem hfi
  have hfe : files ≠ [] := by
    intro h
    rw [h] at hfmem
    cases hfmem
  have hspec := processAll_spec env jd files fs hmem hnd
  have hfo : fileOutcome env jd file = Outcome.failure file.originalname (failMsgHead ++ m) := by
    simp [fileOutcome, processFile, herr]
  refine ⟨(processAll env jd fs files).1, (processAll env jd fs files).2,
    analyze_valid env fs jd files hjd hfe, hspec.1, ?_, ?_⟩
  · rw [hspec.1, List.getElem?_map, hfi]
    simp [hfo]
  · intro hin
    have hall := (hspec.2 file.path).mp hin
    have hsucc := hall.2 file hfmem rfl
    rw [hfo] at hsucc
    simp [Outcome.isSuccess] at hsucc

/-- Witness for C2: in a concrete batch, `c.pdf` is a corrupt PDF (its
extractor throws), and the batch isolates that failure. -/
theorem analyze_per_file_failure_isolated_witness :
    ∃ os fs2,
      analyze envGood store0 (some ("jd".toList)) [fileA, fileC] = (Response.ok os, fs2) ∧
      os = [fileA, fileC].map (fileOutcome envGood ("jd".toList)) ∧
      os[1]? = some (Outcome.failure fileC.originalname (failMsgHead ++ pdfFailMsg)) ∧
      fileC.path ∉ fs2 :=
  analyze_per_file_failure_isolated envGood store0 ("jd".toList) [fileA, fileC]
    1 fileC pdfFailMsg (by decide) (by decide) (by decide) (by decide) (by rfl)

/-- C4: after an accepted batch completes, a file's stored document exists iff
that file's outcome is a Success (deleted on unsupported format or any
processing failure, retained on success), and paths not belonging to the
batch are untouched. -/
theorem analyze_document_retention_iff_success (env : Env) (fs : Finset Str)
    (jd : Str) (files : List UploadedFile)
    (hjd : jd ≠ []) (hfe : files ≠ [])
    (hmem : ∀ f ∈ files, f.path ∈ fs)
    (hnd : (files.map (fun f => f.path)).Nodup) :
    ∃ os fs2, analyze env fs (some jd) files = (Response.ok os, fs2) ∧
      os = files.map (fileOutcome env jd) ∧
      (∀ f ∈ files, (f.path ∈ fs2 ↔ (fileOutcome env jd f).isSuccess = true)) ∧
      (∀ q, (∀ f ∈ files, f.path ≠ q) → (q ∈ fs2 ↔ q ∈ fs)) := by
  have hspec := processAll_spec env jd files fs hmem hnd
  refine ⟨(processAll env jd fs files).1, (processAll env jd fs files).2,
    analyze_valid env fs jd files hjd hfe, hspec.1, ?_, ?_⟩
  · intro f hf
    rw [hspec.2 f.path]
    constructor
    · intro h
      exact h.2 f hf rfl
    · intro hsucc
      refine ⟨hmem f hf, ?_⟩
      intro g hg hgp
      have hgf : g = f := List.inj_on_of_nodup_map hnd hg hf hgp
      rw [hgf]
      exact hsucc
  · intro q hq
    rw [hspec.2 q]
    constructor
    · exact fun h => h.1
    · intro h
      refine ⟨h, ?_⟩
      intro f hf hp
      exact absurd hp (hq f hf)

/-- Witness for C4 on the three-file batch: `a.pdf` succeeds and is retained,
`b.txt` (unsupported) and `c.pdf` (corrupt) are deleted. -/
theorem analyze_document_retention_iff_success_witness :
    ∃ os fs2,
      analyze envGood store0 (some ("jd".toList)) [fileA, fileB, fileC] =
        (Response.ok os, fs2) ∧
      os = [fileA, fileB, fileC].map (fileOutcome envGood ("jd".toList)) ∧
      (∀ f ∈ [fileA, fileB, fileC],
        (f.path ∈ fs2 ↔ (fileOutcome envGood ("jd".toList) f).isSuccess = true)) ∧
      (∀ q, (∀ f ∈ [fileA, fileB, fileC], f.path ≠ q) → (q ∈ fs2 ↔ q ∈ store0)) :=
  analyze_document_retention_iff_success envGood store0 ("jd".toList)
    [fileA, fileB, fileC] (by decide) (by decide) (by decide) (by decide)

/-- C5 (amended): a request violating the whole-batch precondition is rejected
as a validation error before any per-file pipeline work.  In the no-files path
nothing is deleted; in the missing/empty-job-description path, however, the
handler deletes exactly the uploaded files' stored documents (the original
claim's "no stored documents are deleted in this error path" fails there). -/
theorem analyze_validation_paths (env : Env) (fs : Finset Str)
    (jobDescription : Option Str) (files : List UploadedFile) :
    (jdFalsy jobDescription = true →
       analyze env fs jobDescription files =
         (Response.badRequest jdRequiredMsg, deleteUploads fs files) ∧
       ∀ q, q ∈ deleteUploads fs files ↔
         (q ∈ fs ∧ q ∉ files.map (fun f => f.path))) ∧
    (jdFalsy jobDescription = false → files = [] →
       analyze env fs jobDescription files = (Response.badRequest noFilesMsg, fs)) := by
  constructor
  · intro hjd
    exact ⟨by simp [analyze, hjd], deleteUploads_mem files fs⟩
  · intro hjd hfe
    simp [analyze, hjd, hfe, deleteUploads]

/-- Witness for C5 (amended), exercising both validation paths concretely. -/
theorem analyze_validation_paths_witness :
    (analyze envGood store0 none [fileA] =
       (Response.badRequest jdRequiredMsg, deleteUploads store0 [fileA]) ∧
     ∀ q, q ∈ deleteUploads store0 [fileA] ↔
       (q ∈ store0 ∧ q ∉ [fileA].map (fun f => f.path))) ∧
    analyze envGood store0 (some ("jd".toList)) [] =
      (Response.badRequest noFilesMsg, store0) :=
  ⟨(analyze_validation_paths envGood store0 none [fileA]).1 (by decide),
   (analyze_validation_paths envGood store0 (some ("jd".toList)) []).2 (by decide) rfl⟩

/-- Counterexample to C5 as stated: with the job description absent and one
uploaded file present, the handler rejects the request but also deletes the
file's stored document (`up/a1` is in the store before the call and gone
afterwards), contradicting "no stored documents are deleted in this error
path". -/
theorem analyze_missing_jd_deletes_counterexample :
    analyze envGood store0 none [fileA] =
      (Response.badRequest jdRequiredMsg, {"up/b2".toList, "up/c3".toList}) ∧
    fileA.path ∈ store0 ∧
    fileA.path ∉ ({"up/b2".toList, "up/c3".toList} : Finset Str) := by
  refine ⟨?_, by decide, by decide⟩
  decide

/-- The only error the interpreter can raise past the fallback is the
structure-validation one. -/
theorem parseStage_error_msg (t m : Str) (h : parseStage t = Except.error m) :
    m = structureErrMsg := by
  rcases hr : rawRecord t with ⟨sv, gv, bv⟩
  unfold parseStage at h
  rw [hr] at h
  unfold validate at h
  cases sv <;> cases gv <;> cases bv <;> simp_all

/-- The caught message is embedded in the degraded result's weaknesses. -/
theorem msg_infix_degraded (m : Str) : m <:+: (degradedResult m).badPoints :=
  ⟨"Evaluation failed due to an internal error: ".toList,
   ". Please ensure your API key is valid and the Groq model is accessible.".toList, rfl⟩

/-- C3: `scoreResume` absorbs every oracle-side and transport-level failure.
Totality is by construction of the embedding (every throw of the source is
caught by the outer catch, so the function returns an `AnalysisResult` record
— an `Int` score and two strings — on every path); this theorem pins down the
degraded paths: a throwing API call yields the degraded record with the error
message embedded in the weaknesses, a missing response content yields the
degraded record for the resulting TypeError, and malformed content yields
either the interpreted record or the degraded record for the validation
error. -/
theorem scoreResume_absorbs_oracle_failure (env : Env) (r j : Str) :
    (∀ m, keyFalsy env.apiKey = false →
      env.oracle (buildPrompt r j) = OracleResult.throws m →
      scoreResume env r j = degradedResult m ∧
      m <:+: (scoreResume env r j).badPoints) ∧
    (keyFalsy env.apiKey = false →
      env.oracle (buildPrompt r j) = OracleResult.content none →
      scoreResume env r j = degradedResult undefinedMatchMsg) ∧
    (∀ raw, keyFalsy env.apiKey = false →
      env.oracle (buildPrompt r j) = OracleResult.content (some raw) →
      (∃ res, parseStage (jsTrim raw) = Except.ok res ∧ scoreResume env r j = res) ∨
      (parseStage (jsTrim raw) = Except.error structureErrMsg ∧
       scoreResume env r j = degradedResult structureErrMsg)) := by
  refine ⟨?_, ?_, ?_⟩
  · intro m hk ho
    have he : scoreResume env r j = degradedResult m := by
      simp [scoreResume, hk, ho]
    refine ⟨he, ?_⟩
    rw [he]
    exact msg_infix_degraded m
  · intro hk ho
    simp [scoreResume, hk, ho]
  · intro raw hk ho
    cases hps : parseStage (jsTrim raw) with
    | ok res =>
      left
      exact ⟨res, rfl, by simp [scoreResume, hk, ho, hps]⟩
    | error msg =>
      have hm := parseStage_error_msg (jsTrim raw) msg hps
      subst hm
      right
      exact ⟨rfl, by simp [scoreResume, hk, ho, hps]⟩

/-- An environment whose oracle call rejects. -/
def envThrow : Env :=
  { apiKey := some ("k".toList)
    oracle := fun _ => OracleResult.throws ("boom".toList)
    pdfText := fun _ => none
    docxText := fun _ => none }

/-- Witness for C3: a concrete throwing oracle is absorbed into a degraded
record embedding the message. -/
theorem scoreResume_absorbs_oracle_failure_witness :
    scoreResume envThrow ("r".toList) ("j".toList) = degradedResult ("boom".toList) ∧
    ("boom".toList) <:+: (scoreResume envThrow ("r".toList) ("j".toList)).badPoints :=
  (scoreResume_absorbs_oracle_failure envThrow ("r".toList) ("j".toList)).1
    ("boom".toList) (by rfl) rfl

/-- C9: with the oracle credential absent, `scoreResume` short-circuits to the
fixed degraded record, for every oracle whatsoever — in particular it performs
no oracle interaction. -/
theorem scoreResume_no_key_short_circuit (ora : Str → OracleResult)
    (pdf docx : Str → Option Str) (r j : Str) :
    scoreResume { apiKey := none, oracle := ora, pdfText := pdf, docxText := docx } r j
      = keyMissingResult := rfl

/-- C8 (amended): whatever a pipeline run returns passed the `typeof`
validation — the score was a JS number and the two text fields JS strings.
The 0–100 integer range of the original claim is NOT enforced (see the
counterexample, where a strict-path score of 150 passes through). -/
theorem validated_result_field_types (text : Str) (r : AnalysisResult)
    (h : parseStage text = Except.ok r) :
    rawRecord text =
      { score := JsVal.num r.score
        goodPoints := JsVal.str r.goodPoints
        badPoints := JsVal.str r.badPoints } := by
  rcases hr : rawRecord text with ⟨sv, gv, bv⟩
  unfold parseStage at h
  rw [hr] at h
  unfold validate at h
  cases sv <;> cases gv <;> cases bv <;> simp_all
  rename_i n g b
  rw [← h]
  simp

/-- Witness for C8 (amended) at the sample response. -/
theorem validated_result_field_types_witness :
    rawRecord sampleJson =
      { score := JsVal.num (72 : Int)
        goodPoints := JsVal.str ("x".toList)
        badPoints := JsVal.str ("y".toList) } :=
  validated_result_field_types sampleJson ⟨72, "x".toList, "y".toList⟩ (by rfl)

/-- An environment whose oracle reports a score of 150. -/
def env150 : Env :=
  { apiKey := some ("k".toList)
    oracle := fun _ => OracleResult.content
      (some ("\x7b\"score\":150,\"goodPoints\":\"x\",\"badPoints\":\"y\"\x7d".toList))
    pdfText := fun _ => none
    docxText := fun _ => none }

/-- Counterexample to C8 as stated: a score of 150 — outside the claimed 0–100
range — survives validation and is returned unchanged. -/
theorem score_range_counterexample :
    scoreResume env150 ("r".toList) ("j".toList) =
      { score := 150, goodPoints := "x".toList, badPoints := "y".toList } ∧
    ¬((150 : Int) ≤ 100) := by
  exact ⟨by decide, by decide⟩

theorem firstIdx_eq_none_of_not_mem (c : Char) :
    ∀ (s : Str), c ∉ s → firstIdx s c = none
  | [], _ => rfl
  | x :: xs, h => by
    have hx : ¬ x = c := fun e => h (by simp [e])
    have h2 : c ∉ xs := fun hm => h (by simp [hm])
    simp [firstIdx, hx, firstIdx_eq_none_of_not_mem c xs h2]

theorem lastIdx_eq_none_of_not_mem (c : Char) (s : Str) (h : c ∉ s) :
    lastIdx s c = none := by
  have : c ∉ s.reverse := by simpa using h
  simp [lastIdx, firstIdx_eq_none_of_not_mem c s.reverse this]

/-- Without both braces present, the strict path is skipped. -/
theorem strictSlice_none_of_no_brace (text : Str)
    (h : '\x7b' ∉ text ∨ '\x7d' ∉ text) : strictSlice text = none := by
  rcases h with h | h
  · simp [strictSlice, firstIdx_eq_none_of_not_mem _ _ h]
  · rw [strictSlice, lastIdx_eq_none_of_not_mem _ _ h]
    cases firstIdx text '\x7b' <;> rfl

/-- C7 (amended): on raw text missing a brace the interpreter takes the
fallback path and never raises — it returns the per-key regex extractions;
when additionally none of the three key patterns occurs in the text, the
result is exactly score 0 with the two non-empty placeholder strings.  (The
original claim promised score 0 for ALL brace-free text; the counterexample
shows a brace-free text whose `"score":` pattern yields 42.) -/
theorem interpret_no_braces_fallback (text : Str)
    (hb : '\x7b' ∉ text ∨ '\x7d' ∉ text) :
    parseStage text =
      Except.ok ⟨fallbackScore text, fallbackGood text, fallbackBad text⟩ ∧
    (findFirstMatch scoreMatchAt text = none →
     findFirstMatch (quotedMatchAt goodPat) text = none →
     findFirstMatch (quotedMatchAt badPat) text = none →
       parseStage text = Except.ok ⟨0, goodPlaceholder, badPlaceholder⟩ ∧
       goodPlaceholder ≠ [] ∧ badPlaceholder ≠ []) := by
  have hsl := strictSlice_none_of_no_brace text hb
  have hfb : parseStage text =
      Except.ok ⟨fallbackScore text, fallbackGood text, fallbackBad text⟩ := by
    simp [parseStage, rawRecord, hsl, fallbackRecord, validate]
  refine ⟨hfb, ?_⟩
  intro h1 h2 h3
  refine ⟨?_, by decide, by decide⟩
  rw [hfb]
  simp [fallbackScore, fallbackGood, fallbackBad, h1, h2, h3]

/-- Witness for C7 (amended) on brace- and pattern-free text. -/
theorem interpret_no_braces_fallback_witness :
    parseStage ("hello there".toList) =
      Except.ok ⟨0, goodPlaceholder, badPlaceholder⟩ ∧
    goodPlaceholder ≠ [] ∧ badPlaceholder ≠ [] :=
  (interpret_no_braces_fallback ("hello there".toList) (by decide)).2
    (by rfl) (by rfl) (by rfl)

/-- Counterexample to C7 as stated: the brace-free malformed text
`"score": 42` makes the fallback return score 42, not the claimed 0. -/
theorem interpret_no_braces_counterexample :
    '\x7b' ∉ ("\"score\": 42".toList) ∧ '\x7d' ∉ ("\"score\": 42".toList) ∧
    parseStage ("\"score\": 42".toList) =
      Except.ok ⟨42, goodPlaceholder, badPlaceholder⟩ ∧
    (42 : Int) ≠ 0 :=
  ⟨by decide, by decide, by rfl, by decide⟩

theorem firstIdx_append_of_not_mem (c : Char) :
    ∀ (a b : Str), c ∉ a →
      firstIdx (a ++ b) c = (firstIdx b c).map (fun i => a.length + i)
  | [], b, _ => by cases hfb : firstIdx b c <;> simp [hfb]
  | x :: xs, b, h => by
    have hx : ¬ x = c := fun e => h (by simp [e])
    have h2 : c ∉ xs := fun hm => h (by simp [hm])
    have ih := firstIdx_append_of_not_mem c xs b h2
    cases hfb : firstIdx b c with
    | none => simp [firstIdx, hx, ih, hfb]
    | some i =>
      simp [firstIdx, hx, ih, hfb]
      omega

/-- With no opening brace in the leading prose and no closing brace in the
trailing prose, the strict slice of `prose ++ json ++ prose` is exactly the
json text. -/
theorem strictSlice_embedded (p t s : Str)
    (hp : '\x7b' ∉ p) (hs : '\x7d' ∉ s)
    (ht1 : t.head? = some '\x7b') (ht2 : t.getLast? = some '\x7d') :
    strictSlice (p ++ t ++ s) = some t := by
  obtain ⟨t1, rfl⟩ : ∃ t1, t = '\x7b' :: t1 := by
    cases t with
    | nil => cases ht1
    | cons a l =>
      have ha : a = '\x7b' := by simpa using ht1
      exact ⟨l, by rw [ha]⟩
  obtain ⟨w, hw⟩ : ∃ w, ('\x7b' :: t1).reverse = '\x7d' :: w := by
    have hrv : ('\x7b' :: t1).reverse.head? = some '\x7d' := by
      rw [List.head?_reverse]; exact ht2
    cases hrev : ('\x7b' :: t1).reverse with
    | nil => rw [hrev] at hrv; cases hrv
    | cons a l =>
      rw [hrev] at hrv
      have ha : a = '\x7d' := by simpa using hrv
      exact ⟨l, by rw [ha]⟩
  have hfi : firstIdx (p ++ ('\x7b' :: t1) ++ s) '\x7b' = some p.length := by
    rw [List.append_assoc, firstIdx_append_of_not_mem _ p _ hp]
    simp [firstIdx]
  have hrevfi : firstIdx (p ++ ('\x7b' :: t1) ++ s).reverse '\x7d' = some s.length := by
    have hs2 : '\x7d' ∉ s.reverse := by simpa using hs
    rw [show (p ++ ('\x7b' :: t1) ++ s).reverse
        = s.reverse ++ (('\x7b' :: t1).reverse ++ p.reverse) by
      simp [List.reverse_append]]
    rw [firstIdx_append_of_not_mem _ s.reverse _ hs2, hw]
    simp [firstIdx]
  have hlength : (p ++ ('\x7b' :: t1) ++ s).length - 1 - s.length
      = p.length + ('\x7b' :: t1).length - 1 := by
    simp only [List.length_append, List.length_cons]
    omega
  have hla : lastIdx (p ++ ('\x7b' :: t1) ++ s) '\x7d'
      = some (p.length + ('\x7b' :: t1).length - 1) := by
    unfold lastIdx
    rw [hrevfi]
    dsimp only [Option.map]
    rw [hlength]
  have hlen : ('\x7b' :: t1).length = t1.length + 1 := List.length_cons _ _
  have hb1 : p.length + ('\x7b' :: t1).length - 1 + 1
      = p.length + ('\x7b' :: t1).length := by omega
  have hslice : jsSubstring (p ++ ('\x7b' :: t1) ++ s) p.length
      (p.length + ('\x7b' :: t1).length) = '\x7b' :: t1 := by
    rw [jsSubstring,
      Nat.min_eq_left (Nat.le_add_right _ _),
      Nat.max_eq_right (Nat.le_add_right _ _),
      show p.length + ('\x7b' :: t1).length = (p ++ '\x7b' :: t1).length by simp,
      List.take_left, List.drop_left]
  simp only [strictSlice, hfi, hla]
  rw [hb1, hslice]

/-- The strict slice of a brace-delimited text is the whole text. -/
theorem strictSlice_self (t : Str)
    (ht1 : t.head? = some '\x7b') (ht2 : t.getLast? = some '\x7d') :
    strictSlice t = some t := by
  have h := strictSlice_embedded [] t [] (by simp) (by simp) ht1 ht2
  simpa using h

/-- C6 (amended): a parseable JSON response embedded in surrounding prose is
interpreted exactly as the JSON alone, provided the leading prose contains no
opening brace and the trailing prose no closing brace (the counterexample
shows that prose violating this can change the recovered values); the common
value is the validated record read off the parsed JSON. -/
theorem interpret_embedded_json_brace_free_prose (p t s : Str) (j : Json)
    (hp : '\x7b' ∉ p) (hs : '\x7d' ∉ s)
    (ht1 : t.head? = some '\x7b') (ht2 : t.getLast? = some '\x7d')
    (hj : jsonParse t = some j) :
    parseStage (p ++ t ++ s) = parseStage t ∧
    parseStage t = validate (recordOfJson j) := by
  have h1 := strictSlice_embedded p t s hp hs ht1 ht2
  have h2 := strictSlice_self t ht1 ht2
  have hr1 : rawRecord (p ++ t ++ s) = recordOfJson j := by
    simp only [rawRecord, h1, hj]
  have hr2 : rawRecord t = recordOfJson j := by
    simp only [rawRecord, h2, hj]
  exact ⟨by simp only [parseStage, hr1, hr2], by simp only [parseStage, hr2]⟩

/-- The parsed form of `sampleJson`. -/
def sampleJsonVal : Json :=
  Json.obj [("score".toList, Json.num 72),
            ("goodPoints".toList, Json.str ("x".toList)),
            ("badPoints".toList, Json.str ("y".toList))]

/-- Witness for C6 (amended) with concrete brace-free prose around the sample
response. -/
theorem interpret_embedded_json_witness :
    parseStage ("Sure! ".toList ++ sampleJson ++ " Thanks.".toList)
      = parseStage sampleJson ∧
    parseStage sampleJson = validate (recordOfJson sampleJsonVal) :=
  interpret_embedded_json_brace_free_prose ("Sure! ".toList) sampleJson
    (" Thanks.".toList) sampleJsonVal (by decide) (by decide) (by rfl) (by rfl) (by rfl)

/-- The sample response behind prose that contains a brace-wrapped aside with
a score-like pattern. -/
def proseAside : Str :=
  "My gut said \x7b\"score\": 5\x7d at first. Final answer: ".toList ++ sampleJson

/-- Counterexample to C6 as stated: the same embedded three-key JSON preceded
by prose (an aside mentioning a score of 5 inside braces) is interpreted with
score 5, while the JSON alone yields 72 — the surrounding prose changed the
recovered values. -/
theorem interpret_prose_counterexample :
    parseStage proseAside = Except.ok ⟨5, "x".toList, "y".toList⟩ ∧
    parseStage sampleJson = Except.ok ⟨72, "x".toList, "y".toList⟩ ∧
    (5 : Int) ≠ 72 :=
  ⟨by rfl, by rfl, by decide⟩

/-- One string differs from another only in letter case: same length, and
character-wise either equal or an upper-case variant of it. -/
def caseVariant (e t : Str) : Prop :=
  List.Forall₂ (fun a b => a = b ∨ Char.toLower a = b) e t

theorem caseVariant_toLower (e t : Str) (h : caseVariant e t)
    (ht : ∀ c ∈ t, Char.toLower c = c) : jsToLower e = t := by
  induction h with
  | nil => rfl
  | cons h1 h2 ih =>
    rename_i a b l1 l2
    have hb : Char.toLower a = b := by
      rcases h1 with rfl | h1
      · exact ht a (by simp)
      · exact h1
    have ht2 : ∀ c ∈ l2, Char.toLower c = c := fun c hc => ht c (by simp [hc])
    simp [jsToLower, hb]
    simpa [jsToLower] using ih ht2

/-- C10: format routing is case-insensitive on the filename extension — a file
whose extension differs from `.pdf` (resp. `.docx`) only in letter case is
routed to the corresponding extractor (success or extraction failure), not
rejected as an unsupported type. -/
theorem routing_case_insensitive (env : Env) (jd : Str) (fs : Finset Str)
    (file : UploadedFile) :
    (caseVariant (extname file.originalname) (".pdf".toList) →
      processFile env jd fs file =
        (match extractTextFromPDF env file.path with
         | Except.ok t =>
           (Outcome.success file.originalname (basename file.path)
             (scoreResume env t jd), fs)
         | Except.error m =>
           (Outcome.failure file.originalname (failMsgHead ++ m),
            if file.path ∈ fs then fs.erase file.path else fs))) ∧
    (caseVariant (extname file.originalname) (".docx".toList) →
      processFile env jd fs file =
        (match extractTextFromDOCX env file.path with
         | Except.ok t =>
           (Outcome.success file.originalname (basename file.path)
             (scoreResume env t jd), fs)
         | Except.error m =>
           (Outcome.failure file.originalname (failMsgHead ++ m),
            if file.path ∈ fs then fs.erase file.path else fs))) := by
  constructor
  · intro h
    have hl : jsToLower (extname file.originalname) = ".pdf".toList :=
      caseVariant_toLower _ _ h (by decide)
    cases h2 : extractTextFromPDF env file.path with
    | ok t => simp [processFile, fileBody, hl, h2]
    | error m => simp [processFile, fileBody, hl, h2]
  · intro h
    have hl : jsToLower (extname file.originalname) = ".docx".toList :=
      caseVariant_toLower _ _ h (by decide)
    have hn1 : jsToLower (extname file.originalname) ≠ ['.', 'p', 'd', 'f'] := by
      rw [hl]; decide
    cases h2 : extractTextFromDOCX env file.path with
    | ok t => simp [processFile, fileBody, hn1, hl, h2]
    | error m => simp [processFile, fileBody, hn1, hl, h2]

/-- An upload whose extension is upper-cased. -/
def filePDFCase : UploadedFile := ⟨"resume.PDF".toList, "up/a1".toList⟩

/-- Witness for C10: `resume.PDF` reaches the PDF extractor. -/
theorem routing_case_insensitive_witness :
    processFile envGood ("jd".toList) store0 filePDFCase =
      (match extractTextFromPDF envGood filePDFCase.path with
       | Except.ok t =>
         (Outcome.success filePDFCase.originalname (basename filePDFCase.path)
           (scoreResume envGood t ("jd".toList)), store0)
       | Except.error m =>
         (Outcome.failure filePDFCase.originalname (failMsgHead ++ m),
          if filePDFCase.path ∈ store0 then store0.erase filePDFCase.path else store0)) :=
  (routing_case_insensitive envGood ("jd".toList) store0 filePDFCase).1
    (List.Forall₂.cons (Or.inl rfl)
      (List.Forall₂.cons (Or.inr (by decide))
        (List.Forall₂.cons (Or.inr (by decide))
          (List.Forall₂.cons (Or.inr (by decide)) List.Forall₂.nil))))

end AIR
